import Mathlib

/-!
Verification development for the Roydon level-crossing tracker
(`darwin_pushport.py` and `s3_bootstrap.py`).

Shallow embedding conventions:
* A Python `datetime` is modelled as an integer number of seconds on an
  absolute time line (`ℤ`).  `datetime.now()` becomes an explicit `now : ℤ`
  argument; `now.replace(hour=h, minute=m, second=0, microsecond=0)` becomes
  `dayStart now + 3600*h + 60*m`; `timedelta` arithmetic is integer
  arithmetic in seconds.  Every instant the program constructs is a whole
  multiple of 60 s (times parse from `HH:MM` with seconds and microseconds
  zeroed), so integer seconds represent Python's microsecond-exact datetime
  values faithfully on every value these functions produce; the single
  division (the inference midpoint) is exact on the whole-minute inputs the
  program feeds it, which the corresponding theorem makes explicit as a
  divisibility hypothesis.
* An XML attribute read by `e.get(name)` is an `Option String` (absent =
  `none`).  Python truthiness of such a value (`if pta or ptd:` etc.) is the
  predicate `truthy` below: `none` and `some ""` are falsy.
* A Python `dict` used as the train cache is modelled as an association list
  `List (String × Train)` in insertion order; `d[k] = v` is `dictInsert`
  (update in place if the key exists, else append), matching CPython dict
  semantics.
* Dict keys absent from a record (the realtime path never sets `platform`
  or `actual` at creation) are modelled as structure fields with their
  Python-falsy default.
* `now.strftime('%Y-%m-%d')` (the calendar date string of `now`) is passed
  in as an explicit `todayStr` argument wherever the source computes it;
  every call site in the source derives it from the same `now`, so the two
  occurrences (in `parse_timetable` and `find_passing_trains_by_inference`)
  receive the same string, which the embedding preserves by passing the
  same argument.
-/

/-- Python truthiness of an optional attribute string: `None` and `""` are
falsy, every non-empty string is truthy. -/
def truthy : Option String → Bool
  | none => false
  | some s => !(s == "")

/-- Python `a or b` on optional attribute strings: the left operand if it is
truthy, otherwise the right operand. -/
def pyOr (a b : Option String) : Option String :=
  if truthy a then a else b

/-- Midnight (start of day) of the day containing instant `t`, in absolute
seconds: models `now.replace(hour=…, minute=…, second=0, microsecond=0)`
keeping the date part of `now` (the `%` is the always-nonnegative `emod`,
so this is the correct midnight also for instants before the epoch). -/
def dayStart (t : ℤ) : ℤ :=
  t - t % 86400

/-- Split of a character list at `':'` separators, the structural analogue
of Python `time_str.split(':')` (always returns at least one, possibly
empty, group). -/
def splitColon : List Char → List (List Char)
  | [] => [[]]
  | c :: rest =>
    let r := splitColon rest
    if c = ':' then [] :: r
    else
      match r with
      | [] => [[c]]
      | g :: gs => (c :: g) :: gs

/-- Value of a decimal digit character, `none` for a non-digit. -/
def decDigit? (c : Char) : Option Nat :=
  if 48 ≤ c.toNat ∧ c.toNat ≤ 57 then some (c.toNat - 48) else none

/-- Python `int(...)` on one split part, restricted to plain decimal digit
strings (a signed string would parse to a negative number and then fail the
`replace` range check below, so the overall outcome `none` agrees). -/
def digitsToNat? (cs : List Char) : Option Nat :=
  match cs with
  | [] => none
  | _ =>
    cs.foldl
      (fun acc c =>
        match acc, decDigit? c with
        | some n, some d => some (10 * n + d)
        | _, _ => none)
      (some 0)

/-- Shared helper for both `parse_time` functions: Python
`parts = time_str.split(':'); hours = int(parts[0]); minutes = int(parts[1])`
followed by `now.replace(hour=hours, minute=minutes, …)`, which raises
(hence `None` via the `except`) unless `0 ≤ hours ≤ 23` and
`0 ≤ minutes ≤ 59`.  Fewer than two `':'`-separated parts raise an
`IndexError` (hence `None`); any third part (seconds) is ignored. -/
def parseHM (s : String) : Option (Nat × Nat) :=
  match splitColon s.data with
  | h :: m :: _ =>
    match digitsToNat? h, digitsToNat? m with
    | some hh, some mm => if hh ≤ 23 ∧ mm ≤ 59 then some (hh, mm) else none
    | _, _ => none
  | _ => none

/-- Model of `darwin_pushport.parse_time` (lines 80–98): resolve a `HH:MM`
string to an instant on the current day of `now`, rolling to the next day
whenever the resolved instant is strictly before `now` (no grace window on
this path). -/
def parse_time (now : ℤ) (s : String) : Option ℤ :=
  match parseHM s with
  | none => none
  | some (h, m) =>
    let t : ℤ := dayStart now + 3600 * h + 60 * m
    some (if t < now then t + 86400 else t)

/-- Model of `S3TimetableBootstrap.parse_time` (s3_bootstrap.py lines
309–330): same resolution, but rolled to the next day only when the
resolved instant is more than one hour (3600 s) in the past of `now`. -/
def s3_parse_time (now : ℤ) (s : String) : Option ℤ :=
  match parseHM s with
  | none => none
  | some (h, m) =>
    let t : ℤ := dayStart now + 3600 * h + 60 * m
    some (if t < now - 3600 then t + 86400 else t)

/-- The observation point's TIPLOC code (`ROYDON_TIPLOC` in both files). -/
def ROYDON_TIPLOC : String := "ROYDON"

/-- One location element of a schedule or journey, carrying its TIPLOC and
the five optional time attributes (public arrival/departure, working
arrival/departure, working pass) plus the platform attribute. -/
structure Location where
  tpl : String
  pta : Option String := none
  ptd : Option String := none
  wta : Option String := none
  wtd : Option String := none
  wtp : Option String := none
  plat : Option String := none
deriving DecidableEq, Repr

/-- A cached/emitted train record: the dict stored in `trains_cache` and the
dicts produced by the S3 bootstrap.  `parsed_time` is the resolved instant
(`None` possible on the realtime path).  `platform` and `actual` are absent
keys on the paths that do not set them, modelled by their falsy defaults. -/
structure Train where
  rid : String
  uid : Option String := none
  ssd : Option String := none
  toc : Option String := none
  type : String
  time : String
  parsed_time : Option ℤ := none
  origin : Option String := none
  destination : Option String := none
  platform : Option String := none
  eta : Option String := none
  delayed : Bool := false
  actual : Bool := false
deriving DecidableEq, Repr

/-- Time-selection precedence shared verbatim by
`DarwinMessageListener.process_schedules` (darwin_pushport.py lines
174–182) and `S3TimetableBootstrap.extract_train_data` (s3_bootstrap.py
lines 273–282): public times give a stopping train at departure-else-
arrival; else a working pass time gives a passing train; else a passing
train at working departure-else-arrival. -/
def selectTime (loc : Location) : String × Option String :=
  if truthy loc.pta || truthy loc.ptd then ("stopping", pyOr loc.ptd loc.pta)
  else if truthy loc.wtp then ("passing", loc.wtp)
  else ("passing", pyOr loc.wtd loc.wta)

/-- The `trains_cache` dict, as an association list in insertion order
(CPython dicts preserve insertion order; an update in place keeps the
original position). -/
abbrev Cache := List (String × Train)

/-- Python `d[k] = v` on the cache dict: replace in place if the key is
present, else append at the end. -/
def dictInsert (c : Cache) (k : String) (v : Train) : Cache :=
  if c.any (fun p => p.1 = k) then
    c.map (fun p => if p.1 = k then (k, v) else p)
  else c ++ [(k, v)]

/-- Python `d.get(k)` / `d[k]` read on the cache dict. -/
def lookup (c : Cache) (k : String) : Option Train :=
  (c.find? (fun p => p.1 = k)).map Prod.snd

/-- Python `d[k] = f(d[k])`-style in-place mutation of one entry. -/
def dictModify (c : Cache) (k : String) (f : Train → Train) : Cache :=
  c.map (fun p => if p.1 = k then (p.1, f p.2) else p)

/-- One `<schedule>` element of a realtime Push Port message: its `rid`,
`uid`, `ssd`, `toc` attributes and the location elements it contains.
The frame decoder's tag-classification (substring matching on element
tags) is elided: a `Schedule` here is an element already recognised as a
schedule. -/
structure Schedule where
  rid : Option String := none
  uid : Option String := none
  ssd : Option String := none
  toc : Option String := none
  locs : List Location := []
deriving DecidableEq, Repr

/-- First location with a truthy (non-empty) `tpl`, as assigned by
`if origin is None and tiploc: origin = tiploc` in the scan at
darwin_pushport.py lines 156–162. -/
def firstTruthyTpl : List Location → Option String
  | [] => none
  | l :: ls => if l.tpl ≠ "" then some l.tpl else firstTruthyTpl ls

/-- Last location with a truthy `tpl` (the repeated `destination = tiploc`
assignment in the same scan). -/
def lastTruthyTpl (ls : List Location) : Option String :=
  firstTruthyTpl ls.reverse

/-- Last location whose `tpl` equals the observation point (the repeated
`roydon_location = loc` assignment at darwin_pushport.py line 165). -/
def findRoydonLoc (ls : List Location) : Option Location :=
  ls.reverse.find? (fun l => l.tpl = ROYDON_TIPLOC)

/-- The `(rid, dict)` pair that `process_schedules` (darwin_pushport.py
lines 143–200) writes into `trains_cache` for one schedule element, or
`none` when the schedule is skipped (falsy `rid`, no location at the
observation point, or no resolvable time string). -/
def scheduleTrain (now : ℤ) (s : Schedule) : Option (String × Train) :=
  if ¬ truthy s.rid then none
  else
    match findRoydonLoc s.locs with
    | none => none
    | some loc =>
      let sel := selectTime loc
      if truthy sel.2 then
        some (s.rid.getD "",
          { rid := s.rid.getD "", uid := s.uid, ssd := s.ssd, toc := s.toc,
            type := sel.1, time := sel.2.getD "",
            parsed_time := parse_time now (sel.2.getD ""),
            destination := lastTruthyTpl s.locs,
            origin := firstTruthyTpl s.locs,
            eta := none, delayed := false })
      else none

/-- Effect of one schedule element on the cache. -/
def process_schedule (now : ℤ) (c : Cache) (s : Schedule) : Cache :=
  match scheduleTrain now s with
  | none => c
  | some (k, v) => dictInsert c k v

/-- Model of `DarwinMessageListener.process_schedules`: every schedule
element of the decoded message applied in document order. -/
def process_schedules (now : ℤ) (c : Cache) (root : List Schedule) : Cache :=
  root.foldl (process_schedule now) c

/-- Eviction predicate of `get_realtime_trains` (darwin_pushport.py lines
321–329): an entry is deleted when it has a parsed time and that time is
strictly before `now - 5 minutes`; entries with a null `parsed_time` are
kept. -/
def keepAfterEvict (now : ℤ) (p : String × Train) : Bool :=
  match p.2.parsed_time with
  | some pt => ¬ pt < now - 300
  | none => true

/-- Selection predicate for the returned list (darwin_pushport.py lines
332–337): a parsed time strictly between `now - 5 min` and `now + 90 min`. -/
def inWindow (now : ℤ) (t : Train) : Bool :=
  match t.parsed_time with
  | some pt => now - 300 < pt ∧ pt < now + 5400
  | none => false

/-- Sort order used by `upcoming.sort(key=lambda t: t['parsed_time'])`:
ascending by resolved instant.  (Python compares the `isoformat()` strings;
for same-day-format timezone-naive datetimes lexicographic order on those
strings coincides with chronological order, so the instant is the faithful
key.  Every sorted record has `parsed_time ≠ none`, so the `getD` default
is never consulted.) -/
def trainLE (a b : Train) : Prop :=
  a.parsed_time.getD 0 ≤ b.parsed_time.getD 0

instance : DecidableRel trainLE :=
  fun a b => inferInstanceAs (Decidable (a.parsed_time.getD 0 ≤ b.parsed_time.getD 0))

instance : IsTotal Train trainLE := ⟨fun _ _ => le_total _ _⟩

instance : IsTrans Train trainLE := ⟨fun _ _ _ => le_trans⟩

/-- Model of the query operation `get_realtime_trains` (darwin_pushport.py
lines 312–347): evict entries older than the 5-minute past grace, then
return the evicted cache together with the remaining entries inside the
(-5 min, +90 min) window sorted ascending by resolved instant. -/
def get_realtime_trains (c : Cache) (now : ℤ) : Cache × List Train :=
  let c2 := c.filter (keepAfterEvict now)
  let upcoming := (c2.map Prod.snd).filter (inWindow now)
  (c2, List.insertionSort trainLE upcoming)

/-- One `<Location>` element of a realtime train-status (`TS`) message,
with its `tpl`, `et` (estimated) and `at` (actual) attributes (`at` is a
Lean keyword, hence the field name `atv`). -/
structure TSLoc where
  tpl : String
  et : Option String := none
  atv : Option String := none
deriving DecidableEq, Repr

/-- One `TS` element of a realtime message (tag classification elided as
for `Schedule`). -/
structure TSMsg where
  rid : Option String := none
  locs : List TSLoc := []
deriving DecidableEq, Repr

/-- Update applied to the cached entry for one matching status location
(darwin_pushport.py lines 224–232): an actual time sets `eta` and the
`actual` flag; otherwise an estimated time sets `eta` and recomputes
`delayed` as (estimate ≠ scheduled time string). -/
def tsApplyLoc (e : Train) (l : TSLoc) : Train :=
  if truthy l.atv then { e with eta := l.atv, actual := true }
  else if truthy l.et then
    { e with eta := l.et, delayed := decide (l.et.getD "" ≠ e.time) }
  else e

/-- Effect of one `TS` element on the cache (darwin_pushport.py lines
209–232): skipped unless its `rid` is truthy and already cached; then each
of its location elements at the observation point updates the entry in
document order. -/
def process_ts (c : Cache) (m : TSMsg) : Cache :=
  if ¬ truthy m.rid then c
  else
    let rid := m.rid.getD ""
    if ¬ c.any (fun p => p.1 = rid) then c
    else
      (m.locs.filter (fun l => l.tpl = ROYDON_TIPLOC)).foldl
        (fun c' l => dictModify c' rid (fun e => tsApplyLoc e l)) c

/-- Model of `DarwinMessageListener.process_train_status`: every `TS`
element of the decoded message applied in document order. -/
def process_train_status (c : Cache) (root : List TSMsg) : Cache :=
  root.foldl process_ts c

/-- One `<Journey>` element of the bulk timetable extract. -/
structure Journey where
  rid : Option String := none
  uid : Option String := none
  ssd : Option String := none
  toc : Option String := none
  locs : List Location := []
deriving DecidableEq, Repr

/-- Last location element with the given `tpl` (both files keep
re-assigning the matching location in their scans, so the last match
wins; likewise a Python dict keyed by `tpl` keeps the last value). -/
def findTplLoc (tiploc : String) (ls : List Location) : Option Location :=
  ls.reverse.find? (fun l => l.tpl = tiploc)

/-- Model of `S3TimetableBootstrap.extract_train_data` (s3_bootstrap.py
lines 261–307): time-selection precedence, then parse, then the
`[now, cutoff]` window check; any failure discards the record. -/
def extract_train_data (rid uid ssd toc : String) (location : Location)
    (origin destination : Option String) (now cutoff : ℤ) : Option Train :=
  let sel := selectTime location
  if ¬ truthy sel.2 then none
  else
    match s3_parse_time now (sel.2.getD "") with
    | none => none
    | some t =>
      if t < now ∨ t > cutoff then none
      else
        some
          { rid := rid, uid := some uid, ssd := some ssd, toc := some toc,
            type := sel.1, time := sel.2.getD "", parsed_time := some t,
            origin := origin, destination := destination,
            platform := location.plat, eta := none, delayed := false }

/-- Per-journey body of the direct-detection loop in `parse_timetable`
(s3_bootstrap.py lines 181–230): attribute defaults, the service-date
filter, the origin/destination/observation-point scan over the journey's
child locations, then `extract_train_data`.  `counter` is the running
`trains_found` value used in the default `rid`. -/
def journeyTrain (tiploc todayStr : String) (now cutoff : ℤ) (counter : ℕ)
    (j : Journey) : Option Train :=
  let rid := j.rid.getD ("timetable_" ++ toString counter)
  let uid := j.uid.getD "unknown"
  let ssd := j.ssd.getD todayStr
  let toc := j.toc.getD "unknown"
  if ssd ≠ todayStr then none
  else
    match findTplLoc tiploc j.locs with
    | none => none
    | some loc =>
      extract_train_data rid uid ssd toc loc
        (j.locs.head?.map (fun l => l.tpl))
        (j.locs.getLast?.map (fun l => l.tpl)) now cutoff

/-- The direct-detection loop of `parse_timetable` over all journeys, with
the running `trains_found` counter (incremented at the top of the loop, so
the first journey sees counter 1). -/
def extractDirect (tiploc todayStr : String) (now cutoff : ℤ) :
    ℕ → List Journey → List Train
  | _, [] => []
  | n, j :: js =>
    match journeyTrain tiploc todayStr now cutoff (n + 1) j with
    | some t => t :: extractDirect tiploc todayStr now cutoff (n + 1) js
    | none => extractDirect tiploc todayStr now cutoff (n + 1) js

/-- Station-code constants of `find_passing_trains_by_inference`
(s3_bootstrap.py lines 343–356). -/
def BEFORE_STATION : String := "BROXBRN"

/-- Broxbourne Junction, the alternative code for the before-station. -/
def BEFORE_STATION_ALT : String := "BROXBNJ"

/-- Cheshunt, the second alternative before-station. -/
def BEFORE_STATION_ALT2 : String := "CHESHNT"

/-- Bishops Stortford, the after-station of the Cambridge corridor. -/
def CAMBRIDGE_AFTER : String := "BSHPSFD"

/-- Liverpool Street endpoint codes. -/
def LIVST_CODES : List String := ["LIVST", "LVRPLST"]

/-- Cambridge endpoint codes. -/
def CAMBRIDGE_CODES : List String := ["CAMBDGE", "CAMBNTH", "CAMBCSN"]

/-- Stansted Airport endpoint codes. -/
def STANSTED_CODES : List String := ["STANAIR"]

/-- Ely endpoint codes. -/
def ELY_CODES : List String := ["ELY", "ELYY"]

/-- Stratford endpoint codes. -/
def STRATFORD_CODES : List String := ["STFD"]

/-- Key-membership test on the per-journey `locations` dict
(`code in locations`). -/
def memKeys (locs : List Location) (k : String) : Bool :=
  locs.any (fun l => l.tpl = k)

/-- `locations.get(code)` on the per-journey dict: last location with that
`tpl` (later duplicates overwrite earlier ones in the dict build loop). -/
def dictGetLoc (locs : List Location) (k : String) : Option Location :=
  findTplLoc k locs

/-- Keys of the per-journey `locations` dict in insertion order: first
occurrence of each `tpl`, in document order (CPython dict key order). -/
def firstOccsAux (seen : List String) : List String → List String
  | [] => []
  | x :: xs =>
    if seen.contains x then firstOccsAux seen xs
    else x :: firstOccsAux (x :: seen) xs

/-- `list(locations.keys())` for a journey. -/
def journeyKeys (j : Journey) : List String :=
  firstOccsAux [] (j.locs.map (fun l => l.tpl))

/-- Membership of an optional endpoint code in a code group
(`origin in CODES` where `origin` may be `None`). -/
def optIn (o : Option String) (cs : List String) : Bool :=
  match o with
  | some c => cs.contains c
  | none => false

/-- Route classification of `find_passing_trains_by_inference`
(s3_bootstrap.py lines 368–455): the if/elif chain selecting
`(before_station_for_calc, after_station, route_type)`, or `none` for the
final `continue`. -/
def routeBranch (locs : List Location) (origin destination : Option String) :
    Option (String × String × String) :=
  let has_broxbourne := memKeys locs BEFORE_STATION || memKeys locs BEFORE_STATION_ALT
    || memKeys locs BEFORE_STATION_ALT2
  let is_stansted_route := optIn destination STANSTED_CODES || optIn origin STANSTED_CODES
  let is_cambridge_route := optIn destination CAMBRIDGE_CODES || optIn origin CAMBRIDGE_CODES
  let is_ely_route := optIn destination ELY_CODES || optIn origin ELY_CODES
  let is_stratford_route := optIn origin STRATFORD_CODES && destination = some "BSHPSFD"
  if has_broxbourne && is_stansted_route then
    if optIn destination STANSTED_CODES then
      some (BEFORE_STATION_ALT2, CAMBRIDGE_AFTER, "Stansted")
    else
      some (CAMBRIDGE_AFTER, "LIVST", "Stansted")
  else if has_broxbourne && is_ely_route && memKeys locs CAMBRIDGE_AFTER then
    if optIn origin ELY_CODES then
      some (CAMBRIDGE_AFTER, "LIVST", "Ely")
    else
      some ("LIVST", CAMBRIDGE_AFTER, "Ely")
  else if has_broxbourne && is_stratford_route && memKeys locs CAMBRIDGE_AFTER then
    some (BEFORE_STATION_ALT2, CAMBRIDGE_AFTER, "Stratford")
  else if has_broxbourne && is_cambridge_route && memKeys locs CAMBRIDGE_AFTER then
    if optIn origin CAMBRIDGE_CODES then
      some (CAMBRIDGE_AFTER, "LIVST", "Cambridge")
    else
      some ("LIVST", CAMBRIDGE_AFTER, "Cambridge")
  else none

/-- Pass-time interpolation (s3_bootstrap.py lines 511–515): Python adds a
`timedelta` of half the exact duration to the chronologically earlier
bracket time.  Both bracket times are `parse_time` outputs and hence whole
multiples of 60 s, so their difference is even and the integer halving here
is the exact Python value on every reachable input. -/
def midpoint_time (a b : ℤ) : ℤ :=
  if a < b then a + (b - a) / 2 else b + (a - b) / 2

/-- Calibration offsets (s3_bootstrap.py lines 517–542), in seconds, keyed
by the route type and the recomputed inbound/outbound direction. -/
def calibrate (route_type : String) (origin destination : Option String)
    (p : ℤ) : ℤ :=
  let is_outbound := optIn destination STANSTED_CODES || optIn destination CAMBRIDGE_CODES
    || optIn destination ELY_CODES || destination = some "BSHPSFD"
  let is_inbound := optIn origin STANSTED_CODES || optIn origin CAMBRIDGE_CODES
    || optIn origin ELY_CODES
  if route_type = "Stansted" && is_outbound then p - 180
  else if route_type = "Stansted" && is_inbound then p + 300
  else if route_type = "Cambridge" && is_inbound then p - 480
  else if route_type = "Cambridge" && is_outbound then p + 540
  else if route_type = "Ely" && is_inbound then p - 480
  else if route_type = "Ely" && is_outbound then p + 540
  else if route_type = "Stratford" then p - 480
  else p

/-- Two-digit zero-padded decimal rendering. -/
def pad2 (n : ℕ) : String :=
  if n < 10 then "0" ++ toString n else toString n

/-- `t.strftime('%H%M')` for an instant. -/
def hhmm (t : ℤ) : String :=
  pad2 ((t % 86400) / 3600).toNat ++ pad2 (((t % 86400) % 3600) / 60).toNat

/-- `t.strftime('%H:%M')` for an instant. -/
def hhmmColon (t : ℤ) : String :=
  pad2 ((t % 86400) / 3600).toNat ++ ":" ++ pad2 (((t % 86400) % 3600) / 60).toNat

/-- Before-side bracket time string (s3_bootstrap.py line 496): public
departure, else public arrival, else working departure, else working
arrival. -/
def beforeTimeStr (l : Location) : Option String :=
  pyOr l.ptd (pyOr l.pta (pyOr l.wtd l.wta))

/-- After-side bracket time string (s3_bootstrap.py line 497): arrival
preferred over departure. -/
def afterTimeStr (l : Location) : Option String :=
  pyOr l.pta (pyOr l.ptd (pyOr l.wta l.wtd))

/-- Bracket-location resolution with the Liverpool Street alias handling
(s3_bootstrap.py lines 479–491). -/
def getBracketLoc (locs : List Location) (code : String) : Option Location :=
  if code = "LIVST" then
    match dictGetLoc locs "LIVST" with
    | some l => some l
    | none => dictGetLoc locs "LVRPLST"
  else dictGetLoc locs code

/-- Per-journey body of `find_passing_trains_by_inference` (s3_bootstrap.py
lines 368–576): route classification, valid-route check, rejection when the
observation point is itself listed, bracket-time resolution and parsing,
midpoint interpolation, calibration, window check, service-date filter, and
the emitted record (with the `inferred_HHMM` fallback identifier only when
the journey carries no `rid`). -/
def inferJourney (tiploc todayStr : String) (now cutoff : ℤ) (j : Journey) :
    Option Train :=
  let locs := j.locs
  let keys := journeyKeys j
  let origin := keys.head?
  let destination := keys.getLast?
  match routeBranch locs origin destination with
  | none => none
  | some (before_station, after_station, route_type) =>
    let has_livst := LIVST_CODES.any (memKeys locs)
    let has_cambridge := CAMBRIDGE_CODES.any (memKeys locs)
    let has_stansted := STANSTED_CODES.any (memKeys locs)
    let has_ely := ELY_CODES.any (memKeys locs)
    let has_stratford := STRATFORD_CODES.any (memKeys locs)
    let is_valid_route := (has_livst && (has_cambridge || has_stansted || has_ely))
      || (has_stratford && memKeys locs CAMBRIDGE_AFTER)
    if ¬ is_valid_route then none
    else if memKeys locs tiploc then none
    else
      match getBracketLoc locs before_station, getBracketLoc locs after_station with
      | some before_loc, some after_loc =>
        let bts := beforeTimeStr before_loc
        let ats := afterTimeStr after_loc
        if ¬ (truthy bts && truthy ats) then none
        else
          match s3_parse_time now (bts.getD ""), s3_parse_time now (ats.getD "") with
          | some before_time, some after_time =>
            let pass_time := calibrate route_type origin destination
              (midpoint_time before_time after_time)
            if pass_time < now ∨ pass_time > cutoff then none
            else
              let rid := j.rid.getD ("inferred_" ++ hhmm pass_time)
              let uid := j.uid.getD "unknown"
              let ssd := j.ssd.getD todayStr
              let toc := j.toc.getD "unknown"
              if ssd ≠ todayStr then none
              else
                some
                  { rid := rid, uid := some uid, ssd := some ssd,
                    toc := some toc, type := "passing",
                    time := hhmmColon pass_time,
                    parsed_time := some pass_time, origin := origin,
                    destination := destination, platform := none,
                    eta := none, delayed := false }
          | _, _ => none
      | _, _ => none

/-- Final deduplication stage (s3_bootstrap.py lines 586–594): keep the
first record seen for each `rid`, accumulating the `seen_rids` set. -/
def dedupTrains (seen : List String) : List Train → List Train
  | [] => []
  | t :: rest =>
    if seen.contains t.rid then dedupTrains seen rest
    else t :: dedupTrains (t.rid :: seen) rest

/-- Model of `S3TimetableBootstrap.find_passing_trains_by_inference`:
inference over every journey, then deduplication by identifier. -/
def find_passing_trains_by_inference (tiploc : String) (journeys : List Journey)
    (now cutoff : ℤ) (todayStr : String) : List Train :=
  dedupTrains [] (journeys.filterMap (inferJourney tiploc todayStr now cutoff))

/-- Mutable fields of `S3TimetableBootstrap` touched by `parse_timetable`. -/
structure BootstrapState where
  tiploc : String
  hours_ahead : ℤ
  trains : List Train := []
  all_journeys : List Journey := []
deriving DecidableEq, Repr

/-- Model of `S3TimetableBootstrap.parse_timetable` (s3_bootstrap.py lines
147–259) after the document has been decompressed and its `Journey`
elements listed: the whole journey list is stored in `all_journeys`, the
direct-detection loop appends its trains, and the inference results are
appended after deduplication. -/
def parse_timetable (st : BootstrapState) (journeys : List Journey)
    (now : ℤ) (todayStr : String) : BootstrapState :=
  let cutoff := now + 3600 * st.hours_ahead
  let direct := extractDirect st.tiploc todayStr now cutoff 0 journeys
  let inferred := find_passing_trains_by_inference st.tiploc journeys now cutoff todayStr
  { st with all_journeys := journeys,
            trains := st.trains ++ direct ++ inferred }

/-- A concrete bulk-extract journey exercising the Cambridge-outbound
inference branch (Liverpool Street → Cambridge via Broxbourne and Bishops
Stortford, with no location at the observation point). -/
def Jtest : Journey :=
  { rid := some "202601017777777", ssd := some "2026-01-01",
    locs := [ { tpl := "LIVST", ptd := some "10:00" },
              { tpl := "BROXBRN" },
              { tpl := "BSHPSFD", pta := some "10:30" },
              { tpl := "CAMBDGE", pta := some "11:00" } ] }

/-- A concrete realtime schedule message carrying the same run identifier
as `Jtest`, with a working-pass time at the observation point. -/
def Stest : Schedule :=
  { rid := some "202601017777777",
    locs := [ { tpl := "ROYDON", wtp := some "10:20" } ] }

/-- C4: for bracket times resolvable by the program (whole minutes, hence
an even difference in seconds), the interpolated pass time before
calibration is the temporal midpoint of the two bracket times — the
earlier time plus half the absolute duration, doubling back to the exact
sum — and the computation is symmetric in its two arguments. -/
theorem midpoint_time_spec (a b : ℤ) (h : 2 ∣ b - a) :
    midpoint_time a b = min a b + |b - a| / 2 ∧
    2 * midpoint_time a b = a + b ∧
    midpoint_time a b = midpoint_time b a := by
  obtain ⟨k, hk⟩ := h
  unfold midpoint_time
  rcases lt_trichotomy a b with hab | hab | hab
  · rw [if_pos hab, if_neg (not_lt.mpr hab.le), min_eq_left hab.le,
      abs_of_nonneg (by omega : (0:ℤ) ≤ b - a)]
    omega
  · subst hab
    simp
    ring
  · rw [if_neg (not_lt.mpr hab.le), if_pos hab, min_eq_right hab.le,
      abs_of_nonpos (by omega : b - a ≤ 0)]
    omega

/-- Witness for `midpoint_time_spec` at the bracket times 10:00 and 10:30
of `Jtest` (36000 s and 37800 s). -/
theorem midpoint_time_spec_witness :
    midpoint_time 36000 37800 = min 36000 37800 + |(37800:ℤ) - 36000| / 2 ∧
    2 * midpoint_time 36000 37800 = 36000 + 37800 ∧
    midpoint_time 36000 37800 = midpoint_time 37800 36000 :=
  midpoint_time_spec 36000 37800 (by decide)

/-- Two minimal distinct journeys for the retention counterexample. -/
def Jmin1 : Journey := { rid := some "A" }

/-- Second minimal journey. -/
def Jmin2 : Journey := { rid := some "B" }

/-- C5 counterexample: after `parse_timetable` finishes on a two-journey
document, *both* journeys are still simultaneously retained in the
`all_journeys` field of the loader (kept alive for the inference pass), so
the backing parse nodes of a consumed journey are not released and peak
retention grows with the document, contradicting the claimed
one-journey-at-a-time bound. -/
theorem parse_timetable_retention_cex :
    (parse_timetable { tiploc := "ROYDON", hours_ahead := 2 } [Jmin1, Jmin2]
        32400 "2026-01-01").all_journeys = [Jmin1, Jmin2] := by
  decide

/-- C5 amended: `parse_timetable` materialises the whole document and
stores the full journey list (all N journeys at once) in `all_journeys`,
so retention is proportional to the document, not to a single journey. -/
theorem parse_timetable_all_journeys (st : BootstrapState)
    (journeys : List Journey) (now : ℤ) (todayStr : String) :
    (parse_timetable st journeys now todayStr).all_journeys = journeys :=
  rfl

/-- C7 counterexample: for `now` = 00:01:00 the time-of-day 00:00 — only
60 s in the past, well inside any small grace window — is rolled to the
next day (86400) by the realtime `parse_time`, while the bulk
`S3TimetableBootstrap.parse_time` resolves it to the current day (0): the
two paths disagree and the realtime path has no grace window at all. -/
theorem parse_time_rollover_cex :
    parse_time 60 "00:00" = some 86400 ∧ s3_parse_time 60 "00:00" = some 0 :=
  ⟨by decide, by decide⟩

/-- C7 amended: the bulk path rolls a parsed time-of-day to the next day
exactly when it lies more than one hour in the past of `now` (a time
within that grace resolves to the current day), while the realtime path
has a zero-width grace: it rolls whenever the resolved instant is strictly
before `now` at all. -/
theorem rollover_grace_spec (now : ℤ) (s : String) (h m : ℕ) (t : ℤ)
    (hp : parseHM s = some (h, m))
    (ht : t = dayStart now + 3600 * h + 60 * m) :
    (now - 3600 ≤ t → s3_parse_time now s = some t) ∧
    (t < now - 3600 → s3_parse_time now s = some (t + 86400)) ∧
    (now ≤ t → parse_time now s = some t) ∧
    (t < now → parse_time now s = some (t + 86400)) := by
  subst ht
  refine ⟨fun hg => ?_, fun hg => ?_, fun hg => ?_, fun hg => ?_⟩ <;>
    simp [s3_parse_time, parse_time, hp] <;> omega

/-- Witness for `rollover_grace_spec` at `now` = 60 s and time-of-day
00:00: within the bulk grace (current day) but rolled by the realtime
path. -/
theorem rollover_grace_spec_witness :
    s3_parse_time 60 "00:00" = some (dayStart 60 + 3600 * (0:ℕ) + 60 * (0:ℕ)) ∧
    parse_time 60 "00:00" = some (dayStart 60 + 3600 * (0:ℕ) + 60 * (0:ℕ) + 86400) :=
  ⟨(rollover_grace_spec 60 "00:00" 0 0 _ (by decide) rfl).1 (by decide),
   (rollover_grace_spec 60 "00:00" 0 0 _ (by decide) rfl).2.2.2 (by decide)⟩

/-- Records retained by the deduplicator with a given identifier: none when
the identifier was already seen, otherwise exactly the first occurrence in
the remaining input. -/
theorem dedupTrains_filter (l : List Train) (r : String) :
    ∀ seen : List String,
    (dedupTrains seen l).filter (fun t => t.rid = r) =
      if seen.contains r then [] else (l.find? (fun t => t.rid = r)).toList := by
  induction l with
  | nil => intro seen; simp [dedupTrains]
  | cons t rest ih =>
    intro seen
    by_cases hs : seen.contains t.rid
    · rw [dedupTrains, if_pos hs, ih seen]
      by_cases hr : t.rid = r
      · rw [← hr, if_pos hs, if_pos hs]
      · rw [List.find?_cons_of_neg _ (by simpa using hr)]
    · rw [dedupTrains, if_neg hs]
      by_cases hr : t.rid = r
      · subst hr
        rw [List.filter_cons_of_pos (by simp), ih (t.rid :: seen),
          if_pos (by simp [List.contains_cons]), if_neg hs,
          List.find?_cons_of_pos _ (by simp)]
        simp
      · rw [List.filter_cons_of_neg (by simpa using hr), ih (t.rid :: seen),
          List.find?_cons_of_neg _ (by simpa using hr)]
        have hbeq : (r == t.rid) = false := by
          simp only [beq_eq_false_iff_ne, ne_eq]
          intro h
          exact hr h.symm
        rw [List.contains_cons, hbeq, Bool.false_or]

/-- Every record kept by the deduplicator comes from the input and its
identifier was not in the already-seen set. -/
theorem mem_dedupTrains (l : List Train) (t : Train) :
    ∀ seen : List String,
    t ∈ dedupTrains seen l → seen.contains t.rid = false ∧ t ∈ l := by
  induction l with
  | nil => intro seen h; simp [dedupTrains] at h
  | cons u rest ih =>
    intro seen h
    by_cases hs : seen.contains u.rid
    · rw [dedupTrains, if_pos hs] at h
      obtain ⟨h1, h2⟩ := ih seen h
      exact ⟨h1, List.mem_cons_of_mem _ h2⟩
    · rw [dedupTrains, if_neg hs] at h
      rcases List.mem_cons.mp h with h | h
      · subst h
        exact ⟨Bool.not_eq_true _ ▸ hs, List.mem_cons_self _ _⟩
      · obtain ⟨h1, h2⟩ := ih (u.rid :: seen) h
        rw [List.contains_cons] at h1
        exact ⟨by simpa using (Bool.or_eq_false_iff.mp h1).2,
          List.mem_cons_of_mem _ h2⟩

/-- The deduplicator's output has pairwise-distinct identifiers. -/
theorem dedupTrains_nodup (l : List Train) :
    ∀ seen : List String, ((dedupTrains seen l).map Train.rid).Nodup := by
  induction l with
  | nil => intro seen; simp [dedupTrains]
  | cons u rest ih =>
    intro seen
    by_cases hs : seen.contains u.rid
    · rw [dedupTrains, if_pos hs]; exact ih seen
    · rw [dedupTrains, if_neg hs]
      refine List.nodup_cons.mpr ⟨?_, ih (u.rid :: seen)⟩
      intro hmem
      obtain ⟨t, htmem, htrid⟩ := List.mem_map.mp hmem
      obtain ⟨h1, _⟩ := mem_dedupTrains rest t (u.rid :: seen) htmem
      rw [List.contains_cons, htrid] at h1
      simp at h1

/-- C9: deduplication of inferred records retains, for each identifier,
exactly the first record of the input carrying that identifier (whatever
the field values of later records), and the output contains no duplicate
identifiers. -/
theorem dedup_spec (l : List Train) :
    ((dedupTrains [] l).map Train.rid).Nodup ∧
    ∀ r : String,
      (dedupTrains [] l).filter (fun t => t.rid = r) =
        (l.find? (fun t => t.rid = r)).toList := by
  refine ⟨dedupTrains_nodup l [], fun r => ?_⟩
  simpa using dedupTrains_filter l r []

/-- Identifier provenance of one inferred record: it is the source
journey's `rid` when that attribute exists, and the prefixed fallback
`inferred_HHMM` only when it does not. -/
theorem inferJourney_rid (tiploc todayStr : String) (now cutoff : ℤ)
    (j : Journey) (t : Train)
    (h : inferJourney tiploc todayStr now cutoff j = some t) :
    ∃ p : ℤ, t.rid = j.rid.getD ("inferred_" ++ hhmm p) := by
  simp only [inferJourney] at h
  repeat' split at h
  any_goals exact Option.noConfusion h
  obtain rfl := (Option.some.inj h).symm
  exact ⟨_, rfl⟩

/-- C3 counterexample: the journey `Jtest` (which carries the run
identifier `202601017777777`) yields an inferred passing train whose
identifier is that same run identifier, with no distinguishing marker —
and the realtime schedule `Stest` ingests a directly observed train under
exactly that identifier, so an inferred identifier can collide with a
directly observed one. -/
theorem inferred_id_collision :
    (find_passing_trains_by_inference "ROYDON" [Jtest] 32400 39600
        "2026-01-01").map Train.rid = ["202601017777777"] ∧
    (scheduleTrain 32400 Stest).map Prod.fst = some "202601017777777" :=
  ⟨by decide, by decide⟩

/-- C3 amended: every train emitted by the passing-train inferencer takes
its identifier verbatim from the source journey's run identifier when the
journey has one; only a journey with no run identifier at all receives a
fallback identifier carrying the distinguishing `inferred_` marker.  An
inferred identifier can therefore equal a directly observed run
identifier. -/
theorem inferred_id_source (tiploc todayStr : String) (now cutoff : ℤ)
    (journeys : List Journey) (t : Train)
    (ht : t ∈ find_passing_trains_by_inference tiploc journeys now cutoff todayStr) :
    ∃ j ∈ journeys,
      j.rid = some t.rid ∨ (j.rid = none ∧ ∃ s, t.rid = "inferred_" ++ s) := by
  obtain ⟨-, hmem⟩ := mem_dedupTrains _ t [] ht
  obtain ⟨j, hj, hjt⟩ := List.mem_filterMap.mp hmem
  obtain ⟨p, hp⟩ := inferJourney_rid tiploc todayStr now cutoff j t hjt
  refine ⟨j, hj, ?_⟩
  cases hjr : j.rid with
  | none => exact Or.inr ⟨rfl, hhmm p, by simp [hp, hjr]⟩
  | some r => exact Or.inl (by simp [hp, hjr])

/-- The concrete train record inferred from `Jtest`. -/
def JtestTrain : Train :=
  { rid := "202601017777777", uid := some "unknown", ssd := some "2026-01-01",
    toc := some "unknown", type := "passing", time := "10:24",
    parsed_time := some 37440, origin := some "LIVST",
    destination := some "CAMBDGE" }

/-- Witness for `inferred_id_source` on the concrete journey `Jtest`. -/
theorem inferred_id_source_witness :
    ∃ j ∈ [Jtest],
      j.rid = some JtestTrain.rid ∨
        (j.rid = none ∧ ∃ s, JtestTrain.rid = "inferred_" ++ s) :=
  inferred_id_source "ROYDON" "2026-01-01" 32400 39600 [Jtest] JtestTrain
    (by decide)

/-- A truthy optional string is a non-empty string once defaulted. -/
theorem truthy_getD {o : Option String} (h : truthy o = true) : o.getD "" ≠ "" := by
  cases o with
  | none => simp [truthy] at h
  | some s =>
    simp only [truthy, Bool.not_eq_true', beq_eq_false_iff_ne, ne_eq] at h
    simpa using h

/-- C2: time selection at the observation point, on both the realtime
schedule path and the bulk-extract path.  With a truthy public time the
kind is `stopping` and the time is departure-else-arrival (always truthy);
otherwise a truthy working-pass time gives kind `passing` with that value;
otherwise kind `passing` with working departure-else-arrival.  Every train
either path emits carries exactly the selected kind and time, and when
none of the five time attributes is truthy neither path emits a train. -/
theorem time_selection_spec (loc : Location) :
    ((truthy loc.pta || truthy loc.ptd) = true →
      selectTime loc = ("stopping", pyOr loc.ptd loc.pta) ∧
      truthy (pyOr loc.ptd loc.pta) = true) ∧
    ((truthy loc.pta || truthy loc.ptd) = false → truthy loc.wtp = true →
      selectTime loc = ("passing", loc.wtp)) ∧
    ((truthy loc.pta || truthy loc.ptd) = false → truthy loc.wtp = false →
      selectTime loc = ("passing", pyOr loc.wtd loc.wta)) ∧
    (∀ (now : ℤ) (s : Schedule) (k : String) (v : Train),
      findRoydonLoc s.locs = some loc → scheduleTrain now s = some (k, v) →
      v.type = (selectTime loc).1 ∧ v.time = (selectTime loc).2.getD "") ∧
    (∀ (rid uid ssd toc : String) (o d : Option String) (now cutoff : ℤ)
        (t : Train),
      extract_train_data rid uid ssd toc loc o d now cutoff = some t →
      t.type = (selectTime loc).1 ∧ t.time = (selectTime loc).2.getD "") ∧
    (truthy loc.pta = false → truthy loc.ptd = false → truthy loc.wtp = false →
      truthy loc.wtd = false → truthy loc.wta = false →
      (∀ (now : ℤ) (s : Schedule), findRoydonLoc s.locs = some loc →
        scheduleTrain now s = none) ∧
      (∀ (rid uid ssd toc : String) (o d : Option String) (now cutoff : ℤ),
        extract_train_data rid uid ssd toc loc o d now cutoff = none)) := by
  refine ⟨?_, ?_, ?_, ?_, ?_, ?_⟩
  · intro h
    refine ⟨by simp [selectTime, h], ?_⟩
    rcases Bool.or_eq_true_iff.mp h with hpta | hptd
    · by_cases hptd : truthy loc.ptd
      · simp [pyOr, hptd]
      · simp [pyOr, hptd, hpta]
    · simp [pyOr, hptd]
  · intro h hw
    simp [selectTime, h, hw]
  · intro h hw
    simp [selectTime, h, hw]
  · intro now s k v h1 h2
    simp only [scheduleTrain, h1] at h2
    split at h2
    · exact Option.noConfusion h2
    · split at h2
      · simp only [Option.some.injEq, Prod.mk.injEq] at h2
        obtain ⟨-, rfl⟩ := h2
        exact ⟨rfl, rfl⟩
      · exact Option.noConfusion h2
  · intro rid uid ssd toc o d now cutoff t h
    rw [extract_train_data] at h
    split at h
    · exact Option.noConfusion h
    · split at h
      · exact Option.noConfusion h
      · split at h
        · exact Option.noConfusion h
        · obtain rfl := (Option.some.inj h).symm
          exact ⟨rfl, rfl⟩
  · intro h1 h2 h3 h4 h5
    have hsel : truthy (selectTime loc).2 = false := by
      simp [selectTime, pyOr, h1, h2, h3, h4, h5]
    constructor
    · intro now s hfind
      rw [scheduleTrain]
      split
      · rfl
      · rw [hfind]
        simp [hsel]
    · intro rid uid ssd toc o d now cutoff
      rw [extract_train_data]
      simp [hsel]

/-- A location with both public times present. -/
def LocStop : Location := { tpl := "ROYDON", pta := some "09:10", ptd := some "09:12" }

/-- A location with only a working pass time (the location of `Stest`). -/
def LocPass : Location := { tpl := "ROYDON", wtp := some "10:20" }

/-- The train record `extract_train_data` produces for `LocPass` at
`now` = 32400 with cutoff 39600. -/
def LocPassTrain : Train :=
  { rid := "R", uid := some "u", ssd := some "s", toc := some "t",
    type := "passing", time := "10:20", parsed_time := some 37200 }

/-- Witness for `time_selection_spec` at concrete locations: the
public-time case, the working-pass case, and the fields of a concrete
bulk-path emission. -/
theorem time_selection_spec_witness :
    (selectTime LocStop = ("stopping", pyOr LocStop.ptd LocStop.pta) ∧
      truthy (pyOr LocStop.ptd LocStop.pta) = true) ∧
    selectTime LocPass = ("passing", LocPass.wtp) ∧
    (LocPassTrain.type = (selectTime LocPass).1 ∧
      LocPassTrain.time = (selectTime LocPass).2.getD "") :=
  ⟨(time_selection_spec LocStop).1 (by decide),
   (time_selection_spec LocPass).2.1 (by decide) (by decide),
   (time_selection_spec LocPass).2.2.2.2.1 "R" "u" "s" "t" none none 32400 39600
     LocPassTrain (by decide)⟩

/-- A realtime schedule whose non-empty time string cannot be parsed. -/
def Sbad : Schedule :=
  { rid := some "R1", locs := [ { tpl := "ROYDON", wtp := some "bad" } ] }

/-- C6 counterexample: ingesting `Sbad` stores a cache entry whose time
string is `"bad"` and whose resolved scheduled instant is null — the
realtime path stores the record instead of discarding it when the time
cannot be resolved to an instant. -/
theorem stored_null_instant_cex :
    (process_schedules 0 [] [Sbad]).map (fun p => (p.1, p.2.time, p.2.parsed_time)) =
      [("R1", "bad", (none : Option ℤ))] := by
  decide

/-- C6 amended: every record either path stores or emits has a truthy
(non-empty) `time` string, and the bulk loader additionally never emits a
record with a null resolved instant (both the direct extraction and the
inference paths always set `parsed_time`); the realtime path, however, can
store a record whose `parsed_time` is null when its non-empty time string
fails to parse (see the counterexample). -/
theorem emitted_time_nonnull :
    (∀ (now : ℤ) (s : Schedule) (k : String) (v : Train),
        scheduleTrain now s = some (k, v) → v.time ≠ "") ∧
    (∀ (rid uid ssd toc : String) (loc : Location) (o d : Option String)
        (now cutoff : ℤ) (t : Train),
        extract_train_data rid uid ssd toc loc o d now cutoff = some t →
        t.time ≠ "" ∧ ∃ pt, t.parsed_time = some pt) ∧
    (∀ (tiploc todayStr : String) (now cutoff : ℤ) (j : Journey) (t : Train),
        inferJourney tiploc todayStr now cutoff j = some t →
        ∃ pt, t.parsed_time = some pt) := by
  refine ⟨?_, ?_, ?_⟩
  · intro now s k v h
    simp only [scheduleTrain] at h
    split at h
    · exact Option.noConfusion h
    · split at h
      · exact Option.noConfusion h
      · split at h
        · rename_i htruthy
          simp only [Option.some.injEq, Prod.mk.injEq] at h
          obtain ⟨-, rfl⟩ := h
          exact truthy_getD htruthy
        · exact Option.noConfusion h
  · intro rid uid ssd toc loc o d now cutoff t h
    rw [extract_train_data] at h
    split at h
    · exact Option.noConfusion h
    · rename_i htruthy
      split at h
      · exact Option.noConfusion h
      · split at h
        · exact Option.noConfusion h
        · obtain rfl := (Option.some.inj h).symm
          exact ⟨truthy_getD (by simpa using htruthy), _, rfl⟩
  · intro tiploc todayStr now cutoff j t h
    simp only [inferJourney] at h
    repeat' split at h
    any_goals exact Option.noConfusion h
    obtain rfl := (Option.some.inj h).symm
    exact ⟨_, rfl⟩

/-- The cache record ingested from `Stest` at `now` = 32400. -/
def StestTrain : Train :=
  { rid := "202601017777777", type := "passing", time := "10:20",
    parsed_time := some 37200, origin := some "ROYDON",
    destination := some "ROYDON" }

/-- Witness for `emitted_time_nonnull` on the concrete realtime schedule
`Stest` and the concrete inferred train of `Jtest`. -/
theorem emitted_time_nonnull_witness :
    StestTrain.time ≠ "" ∧ ∃ pt, JtestTrain.parsed_time = some pt :=
  ⟨emitted_time_nonnull.1 32400 Stest "202601017777777" StestTrain (by decide),
   emitted_time_nonnull.2.2 "ROYDON" "2026-01-01" 32400 39600 Jtest JtestTrain
     (by decide)⟩

/-- The eviction predicate keeps an entry exactly when every resolved
instant it carries is within the 5-minute past grace. -/
theorem keepAfterEvict_iff (now : ℤ) (p : String × Train) :
    keepAfterEvict now p = true ↔
      ∀ pt, p.2.parsed_time = some pt → now - 300 ≤ pt := by
  cases h : p.2.parsed_time <;> simp [keepAfterEvict, h, not_lt]

/-- The window predicate holds exactly for entries with a resolved instant
strictly inside `(now - 5 min, now + 90 min)`. -/
theorem inWindow_iff (now : ℤ) (t : Train) :
    inWindow now t = true ↔
      ∃ pt, t.parsed_time = some pt ∧ now - 300 < pt ∧ pt < now + 5400 := by
  cases h : t.parsed_time <;> simp [inWindow, h]

/-- C1: the query operation first removes exactly the cache entries whose
resolved instant is older than the 5-minute past grace (entries with no
resolved instant are untouched), then returns exactly the remaining
entries whose instant lies strictly between the past-grace cutoff and the
90-minute forward horizon, sorted ascending by resolved instant; every
returned entry's instant is inside that open window. -/
theorem get_realtime_trains_spec (c : Cache) (now : ℤ) :
    (∀ p : String × Train,
      p ∈ (get_realtime_trains c now).1 ↔
        p ∈ c ∧ ∀ pt, p.2.parsed_time = some pt → now - 300 ≤ pt) ∧
    (∀ t ∈ (get_realtime_trains c now).2,
      ∃ pt, t.parsed_time = some pt ∧ now - 300 < pt ∧ pt < now + 5400) ∧
    (get_realtime_trains c now).2.Perm
      (((get_realtime_trains c now).1.map Prod.snd).filter (inWindow now)) ∧
    List.Sorted trainLE (get_realtime_trains c now).2 := by
  refine ⟨?_, ?_, ?_, ?_⟩
  · intro p
    rw [show (get_realtime_trains c now).1 = c.filter (keepAfterEvict now) from rfl,
      List.mem_filter, keepAfterEvict_iff]
  · intro t ht
    have ht' : t ∈ ((c.filter (keepAfterEvict now)).map Prod.snd).filter
        (inWindow now) := by
      simpa [get_realtime_trains] using ht
    exact (inWindow_iff now t).mp (List.mem_filter.mp ht').2
  · exact List.perm_insertionSort trainLE _
  · exact List.sorted_insertionSort trainLE _

/-- A cache entry with an instant inside the query window at `now` = 0. -/
def TAtest : Train :=
  { rid := "A", type := "passing", time := "00:01", parsed_time := some 100 }

/-- Witness for `get_realtime_trains_spec` on a one-entry cache at
`now` = 0: the returned entry's instant lies inside the open window. -/
theorem get_realtime_trains_spec_witness :
    ∃ pt, TAtest.parsed_time = some pt ∧ (0:ℤ) - 300 < pt ∧ pt < 0 + 5400 :=
  (get_realtime_trains_spec [("A", TAtest)] 0).2.1 TAtest (by decide)

/-- Replacing the value stored under `k` does not change which keys occur. -/
theorem any_key_map (c : Cache) (k : String) (v : Train) :
    (c.map (fun p => if p.1 = k then (k, v) else p)).any (fun p => p.1 = k) =
      c.any (fun p => p.1 = k) := by
  induction c with
  | nil => rfl
  | cons q rest ih =>
    simp only [List.map_cons, List.any_cons, ih]
    by_cases h : q.1 = k <;> simp [h]

/-- An in-place update is the identity when the key is absent. -/
theorem map_keyFix_id (c : Cache) (k : String) (v : Train)
    (h : c.any (fun p => p.1 = k) = false) :
    c.map (fun p => if p.1 = k then (k, v) else p) = c := by
  induction c with
  | nil => rfl
  | cons q rest ih =>
    simp only [List.any_cons, Bool.or_eq_false_iff] at h
    simp only [List.map_cons]
    rw [if_neg (by simpa using h.1), ih h.2]

/-- Updating in place twice with the same value is the same as once. -/
theorem map_keyFix_idem (c : Cache) (k : String) (v : Train) :
    ((c.map (fun p => if p.1 = k then (k, v) else p)).map
        (fun p => if p.1 = k then (k, v) else p)) =
      c.map (fun p => if p.1 = k then (k, v) else p) := by
  induction c with
  | nil => rfl
  | cons q rest ih =>
    simp only [List.map_cons, ih]
    by_cases h : q.1 = k <;> simp [h]

/-- Boolean negation unfolding without touching the inner predicate. -/
theorem bool_not_true {b : Bool} (h : ¬ b = true) : b = false := by
  cases b
  · rfl
  · exact absurd rfl h

/-- A dict write is idempotent. -/
theorem dictInsert_idem (c : Cache) (k : String) (v : Train) :
    dictInsert (dictInsert c k v) k v = dictInsert c k v := by
  by_cases h : c.any (fun p => p.1 = k) = true
  · have hin : dictInsert c k v = c.map (fun p => if p.1 = k then (k, v) else p) := by
      rw [dictInsert, if_pos h]
    rw [hin, dictInsert, any_key_map, if_pos h, map_keyFix_idem]
  · have hin : dictInsert c k v = c ++ [(k, v)] := by
      rw [dictInsert, if_neg h]
    rw [hin, dictInsert]
    have hany : ((c ++ [(k, v)]).any (fun p => p.1 = k)) = true := by simp
    rw [if_pos hany, List.map_append, map_keyFix_id c k v (bool_not_true h)]
    simp

/-- An in-place update does not change per-key entry counts. -/
theorem countP_key_map (c : Cache) (k : String) (v : Train) :
    (c.map (fun p => if p.1 = k then (k, v) else p)).countP (fun p => p.1 = k) =
      c.countP (fun p => p.1 = k) := by
  induction c with
  | nil => rfl
  | cons q rest ih =>
    simp only [List.map_cons, List.countP_cons, ih]
    by_cases h : q.1 = k <;> simp [h]

/-- No entry carries an absent key. -/
theorem countP_eq_zero_of_not_any (c : Cache) (k : String)
    (h : c.any (fun p => p.1 = k) = false) :
    c.countP (fun p => p.1 = k) = 0 := by
  induction c with
  | nil => rfl
  | cons q rest ih =>
    simp only [List.any_cons, Bool.or_eq_false_iff] at h
    simp only [List.countP_cons, ih h.2, h.1]
    simp

/-- With pairwise-distinct keys, a present key labels exactly one entry. -/
theorem countP_key_one (c : Cache) (k : String)
    (hnd : (c.map Prod.fst).Nodup) (h : c.any (fun p => p.1 = k) = true) :
    c.countP (fun p => p.1 = k) = 1 := by
  induction c with
  | nil => simp at h
  | cons q rest ih =>
    simp only [List.map_cons, List.nodup_cons] at hnd
    simp only [List.any_cons, Bool.or_eq_true] at h
    simp only [List.countP_cons]
    by_cases hq : q.1 = k
    · have h0 : rest.countP (fun p => p.1 = k) = 0 := by
        rw [List.countP_eq_zero]
        intro p hp hpk
        refine hnd.1 ?_
        refine List.mem_map.mpr ⟨p, hp, ?_⟩
        have : p.1 = k := of_decide_eq_true hpk
        rw [this, hq]
      simp [hq, h0]
    · rcases h with h | h
      · exact absurd (of_decide_eq_true h) hq
      · simp [hq, ih hnd.2 h]

/-- Looking up the key just written finds the written value (present-key
case). -/
theorem lookup_map_keyFix (c : Cache) (k : String) (v : Train)
    (h : c.any (fun p => p.1 = k) = true) :
    lookup (c.map (fun p => if p.1 = k then (k, v) else p)) k = some v := by
  induction c with
  | nil => simp at h
  | cons q rest ih =>
    simp only [List.any_cons, Bool.or_eq_true] at h
    simp only [List.map_cons]
    by_cases hq : q.1 = k
    · rw [if_pos hq]
      simp only [lookup]
      rw [List.find?_cons_of_pos _ (by simp)]
      rfl
    · rw [if_neg hq]
      simp only [lookup]
      rw [List.find?_cons_of_neg _ (by simp [hq])]
      rcases h with h | h
      · exact absurd (of_decide_eq_true h) hq
      · exact ih h

/-- Looking up the key just appended finds the appended value (absent-key
case). -/
theorem lookup_append_single (c : Cache) (k : String) (v : Train)
    (h : c.any (fun p => p.1 = k) = false) :
    lookup (c ++ [(k, v)]) k = some v := by
  induction c with
  | nil =>
    rw [List.nil_append]
    simp only [lookup]
    rw [List.find?_cons_of_pos _ (by simp)]
    rfl
  | cons q rest ih =>
    simp only [List.any_cons, Bool.or_eq_false_iff] at h
    rw [List.cons_append]
    simp only [lookup]
    rw [List.find?_cons_of_neg _ (by simp [h.1])]
    exact ih h.2

/-- A dict write makes the written value the one found under its key. -/
theorem lookup_dictInsert (c : Cache) (k : String) (v : Train) :
    lookup (dictInsert c k v) k = some v := by
  by_cases h : c.any (fun p => p.1 = k) = true
  · rw [dictInsert, if_pos h]
    exact lookup_map_keyFix c k v h
  · rw [dictInsert, if_neg h]
    exact lookup_append_single c k v (bool_not_true h)

/-- An in-place update leaves the key list unchanged. -/
theorem map_fst_keyFix (c : Cache) (k : String) (v : Train) :
    (c.map (fun p => if p.1 = k then (k, v) else p)).map Prod.fst =
      c.map Prod.fst := by
  induction c with
  | nil => rfl
  | cons q rest ih =>
    simp only [List.map_cons, ih]
    by_cases h : q.1 = k <;> simp [h]

/-- A dict write preserves distinctness of keys. -/
theorem nodup_keys_dictInsert (c : Cache) (k : String) (v : Train)
    (hnd : (c.map Prod.fst).Nodup) :
    ((dictInsert c k v).map Prod.fst).Nodup := by
  by_cases h : c.any (fun p => p.1 = k) = true
  · rw [dictInsert, if_pos h, map_fst_keyFix]
    exact hnd
  · rw [dictInsert, if_neg h, List.map_append]
    refine List.Nodup.append hnd (by simp) ?_
    intro a ha hb
    simp only [List.map_cons, List.map_nil, List.mem_singleton] at hb
    subst hb
    obtain ⟨p, hp, hpk⟩ := List.mem_map.mp ha
    exact h (List.any_eq_true.mpr ⟨p, hp, by simp [hpk]⟩)

/-- C8: re-ingesting the same schedule message (relative to the same
`now`) is idempotent — the cache is unchanged by the second ingestion —
and whenever the message writes a record for a run identifier into a cache
with distinct keys, exactly one entry with that identifier exists
afterwards, holding exactly the written value (a later write for an
existing identifier overwrites in place and never duplicates). -/
theorem schedule_ingest_idempotent (now : ℤ) (c : Cache) (s : Schedule)
    (hnd : (c.map Prod.fst).Nodup) :
    process_schedules now (process_schedules now c [s]) [s] =
      process_schedules now c [s] ∧
    process_schedule now (process_schedule now c s) s = process_schedule now c s ∧
    ((process_schedule now c s).map Prod.fst).Nodup ∧
    ∀ k v, scheduleTrain now s = some (k, v) →
      (process_schedule now c s).countP (fun p => p.1 = k) = 1 ∧
      lookup (process_schedule now c s) k = some v := by
  have hmsg : ∀ d : Cache, process_schedules now d [s] = process_schedule now d s :=
    fun d => rfl
  refine ⟨?_, ?_⟩
  case refine_1 =>
    rw [hmsg, hmsg]
    cases hst : scheduleTrain now s with
    | none => simp [process_schedule, hst]
    | some kv =>
      obtain ⟨k, v⟩ := kv
      simp only [process_schedule, hst]
      exact dictInsert_idem c k v
  cases hst : scheduleTrain now s with
  | none =>
    refine ⟨by simp [process_schedule, hst],
      by simpa only [process_schedule, hst] using hnd, ?_⟩
    intro k v h'
    exact Option.noConfusion h'
  | some kv =>
    obtain ⟨k, v⟩ := kv
    refine ⟨?_, ?_, ?_⟩
    · simp only [process_schedule, hst]
      exact dictInsert_idem c k v
    · simp only [process_schedule, hst]
      exact nodup_keys_dictInsert c k v hnd
    · intro k' v' h'
      obtain ⟨rfl, rfl⟩ := Prod.mk.injEq .. |>.mp (Option.some.inj h')
      simp only [process_schedule, hst]
      refine ⟨?_, lookup_dictInsert c k v⟩
      by_cases h : c.any (fun p => p.1 = k) = true
      · rw [dictInsert, if_pos h, countP_key_map]
        exact countP_key_one c k hnd h
      · rw [dictInsert, if_neg h, List.countP_append,
          countP_eq_zero_of_not_any c k (bool_not_true h)]
        simp

/-- Witness for `schedule_ingest_idempotent`: ingesting `Stest` twice into
the empty cache leaves the single entry of the first ingestion. -/
theorem schedule_ingest_idempotent_witness :
    process_schedules 32400 (process_schedules 32400 [] [Stest]) [Stest] =
      process_schedules 32400 [] [Stest] ∧
    process_schedule 32400 (process_schedule 32400 [] Stest) Stest =
      process_schedule 32400 [] Stest ∧
    ((process_schedule 32400 [] Stest).map Prod.fst).Nodup ∧
    (process_schedule 32400 [] Stest).countP
      (fun p => p.1 = "202601017777777") = 1 ∧
    lookup (process_schedule 32400 [] Stest) "202601017777777" =
      some StestTrain := by
  have h := schedule_ingest_idempotent 32400 [] Stest (by decide)
  exact ⟨h.1, h.2.1, h.2.2.1, h.2.2.2 "202601017777777" StestTrain (by decide)⟩

/-- Mutating the entry under `k` in place rewrites the value found there. -/
theorem lookup_dictModify_self (c : Cache) (k : String) (f : Train → Train)
    (e : Train) (he : lookup c k = some e) :
    lookup (dictModify c k f) k = some (f e) := by
  induction c with
  | nil => simp [lookup] at he
  | cons q rest ih =>
    by_cases hq : q.1 = k
    · simp only [lookup] at he
      rw [List.find?_cons_of_pos _ (by simp [hq])] at he
      obtain rfl := Option.some.inj he
      simp only [dictModify, List.map_cons, if_pos hq, lookup]
      rw [List.find?_cons_of_pos _ (by simp [hq])]
      rfl
    · simp only [lookup] at he
      rw [List.find?_cons_of_neg _ (by simp [hq])] at he
      simp only [dictModify, List.map_cons, if_neg hq, lookup]
      rw [List.find?_cons_of_neg _ (by simp [hq])]
      exact ih he

/-- Mutating the entry under `k` leaves every other key's value unchanged. -/
theorem lookup_dictModify_other (c : Cache) (k k' : String) (f : Train → Train)
    (hne : k' ≠ k) :
    lookup (dictModify c k f) k' = lookup c k' := by
  induction c with
  | nil => rfl
  | cons q rest ih =>
    by_cases hq : q.1 = k
    · have hq' : ¬(q.1 = k') := fun h => hne (h.symm.trans hq)
      simp only [dictModify, List.map_cons, if_pos hq, lookup]
      rw [List.find?_cons_of_neg _ (by simp [hq']),
        List.find?_cons_of_neg _ (by simp [hq'])]
      exact ih
    · by_cases hq' : q.1 = k'
      · simp only [dictModify, List.map_cons, if_neg hq, lookup]
        rw [List.find?_cons_of_pos _ (by simp [hq']),
          List.find?_cons_of_pos _ (by simp [hq'])]
      · simp only [dictModify, List.map_cons, if_neg hq, lookup]
        rw [List.find?_cons_of_neg _ (by simp [hq']),
          List.find?_cons_of_neg _ (by simp [hq'])]
        exact ih

/-- C10: a train-status message carrying an actual time for a cached run
at the observation point rewrites only that entry's `eta` (estimate) and
its `actual` (observed) flag — the `with`-update form exhibits every other
field as copied from the previous entry — in particular the `delayed` flag
keeps whatever value an earlier estimate-only update gave it, and all
other cache keys are untouched. -/
theorem status_actual_frame (c : Cache) (rid : String) (e : Train) (l : TSLoc)
    (hrid : rid ≠ "") (hl : l.tpl = ROYDON_TIPLOC) (hat : truthy l.atv = true)
    (he : lookup c rid = some e) :
    lookup (process_ts c { rid := some rid, locs := [l] }) rid =
      some { e with eta := l.atv, actual := true } ∧
    (∀ k', k' ≠ rid →
      lookup (process_ts c { rid := some rid, locs := [l] }) k' = lookup c k') ∧
    ({ e with eta := l.atv, actual := true } : Train).delayed = e.delayed := by
  have hany : c.any (fun p => p.1 = rid) = true := by
    rcases hfind : c.find? (fun p => p.1 = rid) with _ | q
    · simp only [lookup, hfind] at he
      exact Option.noConfusion he
    · have hq := List.find?_some hfind
      exact List.any_eq_true.mpr ⟨q, List.mem_of_find?_eq_some hfind, hq⟩
  have htr : truthy (some rid) = true := by
    simp only [truthy, Bool.not_eq_true', beq_eq_false_iff_ne, ne_eq]
    simpa using hrid
  have hproc : process_ts c { rid := some rid, locs := [l] } =
      dictModify c rid (fun e => tsApplyLoc e l) := by
    simp only [process_ts, Option.getD_some]
    rw [if_neg (by simp [htr]), if_neg (by simp [hany]),
      List.filter_cons_of_pos (by simp [hl]), List.filter_nil]
    rfl
  refine ⟨?_, ?_, rfl⟩
  · rw [hproc, lookup_dictModify_self c rid _ e he]
    simp [tsApplyLoc, hat]
  · intro k' hk'
    rw [hproc]
    exact lookup_dictModify_other c rid k' _ hk'

/-- A cached entry that an earlier estimate-only update marked delayed. -/
def TEtest : Train :=
  { rid := "R", type := "passing", time := "10:20", parsed_time := some 37200,
    eta := some "10:25", delayed := true }

/-- A status location carrying an actual time at the observation point. -/
def LAtest : TSLoc := { tpl := "ROYDON", atv := some "10:26" }

/-- Witness for `status_actual_frame`: the actual-time update rewrites
`eta` and `actual` of the concrete delayed entry and leaves its `delayed`
flag (and every other field) as it was. -/
theorem status_actual_frame_witness :
    lookup (process_ts [("R", TEtest)] { rid := some "R", locs := [LAtest] }) "R" =
      some { TEtest with eta := LAtest.atv, actual := true } ∧
    ({ TEtest with eta := LAtest.atv, actual := true } : Train).delayed =
      TEtest.delayed := by
  have h := status_actual_frame [("R", TEtest)] "R" TEtest LAtest
    (by decide) (by decide) (by decide) (by decide)
  exact ⟨h.1, h.2.2⟩
